import Mathlib

/-!
Verification of the merlon packaging pipeline (`src/pack.rs`), the package
descriptor validation (`src/package_config.rs`) and the ROM content
identifier (`src/rom.rs`) against their natural-language specification.

The Rust code is shallowly embedded: pure computations become Lean
functions, filesystem contents become explicit lists of entries, and the
results of external processes (git, tar, openssl) and of fallible I/O
operations become fields of an environment record that the embedded
pipeline consumes.  Strings are Lean `String`s; Rust's byte-oriented
`String::len` is modelled by an explicit UTF-8 byte-length function.
-/

set_option autoImplicit false

namespace Merlon

/-! ## Paths

A minimal model of `std::path::PathBuf`, normalized: a list of parent
components plus an optional final file-name component (`none` models a
path with no file name, such as `/` or `..`).  Only the operations used by
`pack::run` are modelled: `file_stem`, `extension`, `push`,
`set_extension`. -/

structure FsPath where
  dir : List String
  fileName : Option String
deriving DecidableEq, Repr

/-- Index of the last '.' in a list of characters, if any. -/
def lastDotIdxAux : List Char → Nat → Option Nat
  | [], _ => none
  | c :: rest, i =>
    match lastDotIdxAux rest (i + 1) with
    | some j => some j
    | none => if c = '.' then some i else none

def lastDotIdx (cs : List Char) : Option Nat :=
  lastDotIdxAux cs 0

/-- Rust `Path::file_stem` restricted to a known file name: the whole name
if it has no '.' or its only '.' is leading; otherwise the part before the
last '.'. -/
def fileStemName (name : String) : String :=
  match lastDotIdx name.data with
  | none => name
  | some 0 => name
  | some i => ⟨name.data.take i⟩

/-- Rust `Path::extension` restricted to a known file name: the part after
the last '.' unless that '.' is leading or absent. -/
def extOfName (name : String) : Option String :=
  match lastDotIdx name.data with
  | none => none
  | some 0 => none
  | some i => some ⟨name.data.drop (i + 1)⟩

/-- Rust `Path::file_stem`. -/
def fileStem (p : FsPath) : Option String :=
  p.fileName.map fileStemName

/-- Rust `Path::extension`. -/
def pathExt (p : FsPath) : Option String :=
  p.fileName.bind extOfName

/-- Rust `path.extension().unwrap_or_default()`. -/
def extOrDefault (p : FsPath) : String :=
  (pathExt p).getD ""

/-- Rust `PathBuf::push` with a single relative component.  Pushing the
empty string leaves the normalized path unchanged (Rust appends only a
separator). -/
def pushPath (p : FsPath) (s : String) : FsPath :=
  if s = "" then p
  else { dir := p.dir ++ p.fileName.toList, fileName := some s }

/-- Rust `PathBuf::set_extension` with a non-empty extension: replaces the
file name by `stem ++ "." ++ e`; a path without a file name is unchanged. -/
def setExt (p : FsPath) (e : String) : FsPath :=
  match p.fileName with
  | none => p
  | some name => { dir := p.dir, fileName := some (fileStemName name ++ "." ++ e) }

example : fileStem ⟨["a"], some "my-mod.merlon"⟩ = some "my-mod" := by decide
example : fileStem ⟨["a"], none⟩ = none := by decide
example : extOfName ".merlon" = none := by decide
example : setExt (pushPath ⟨["home"], some "work"⟩ "my-mod") "merlon"
    = ⟨["home", "work"], some "my-mod.merlon"⟩ := by decide
example : setExt (pushPath ⟨["home"], some "work"⟩ "") "merlon"
    = ⟨["home"], some "work.merlon"⟩ := by decide

/-! ## Package descriptor validation (`src/package_config.rs`)

`Package::validate` builds a list of human-readable violations.  The
kebab-case conversion comes from the external `heck` crate and is modelled
as a function parameter `kebab`.  Rust `String::len` counts UTF-8 bytes,
modelled by `utf8Len`. -/

structure Package where
  name : String
  version : String
  authors : List String
  description : String
  license : String
  keywords : List String
deriving Repr

/-- Rust `char::is_ascii_alphanumeric`. -/
def isAsciiAlphanumericChar (c : Char) : Bool :=
  ('a' ≤ c && c ≤ 'z') || ('A' ≤ c && c ≤ 'Z') || ('0' ≤ c && c ≤ '9')

/-- Rust `char::len_utf8`: the number of UTF-8 bytes encoding the character. -/
def rustCharLen (c : Char) : Nat :=
  if c.toNat < 0x80 then 1
  else if c.toNat < 0x800 then 2
  else if c.toNat < 0x10000 then 3
  else 4

/-- Rust `String::len`: total UTF-8 byte length. -/
def utf8Len (s : String) : Nat :=
  s.data.foldl (fun n c => n + rustCharLen c) 0

def VALID_KEYWORDS : List String :=
  ["qol", "cheat", "bugfix", "cosmetic", "feature"]

/-- The message pushed for an invalid keyword, mirroring
`format!("invalid keyword: \x7b\x7d (valid keywords: \x7b:?\x7d)", keyword, VALID_KEYWORDS)`. -/
def kwMsg (keyword : String) : String :=
  "invalid keyword: " ++ keyword ++
    " (valid keywords: [\"qol\", \"cheat\", \"bugfix\", \"cosmetic\", \"feature\"])"

/-- The keyword loop at the end of `Package::validate`: one message per
keyword outside the allow-list, in order. -/
def keywordErrors : List String → List String
  | [] => []
  | keyword :: rest =>
    if VALID_KEYWORDS.contains keyword then keywordErrors rest
    else kwMsg keyword :: keywordErrors rest

/-- `Package::validate`: sequential pushes onto an initially empty error
list, mirroring the source line by line.  `kebab` stands for the external
`heck::AsKebabCase` conversion. -/
def validate (kebab : String → String) (p : Package) : List String :=
  let errors : List String := []
  let errors := if p.name = "" then errors ++ ["name cannot be empty"] else errors
  let errors := if kebab p.name ≠ p.name then errors ++ ["name must be kebab-case"] else errors
  let errors := if p.name.data.any (fun c => !isAsciiAlphanumericChar c && c != '-') then
      errors ++ ["name must be alphanumeric"] else errors
  let errors := if p.version = "" then errors ++ ["version cannot be empty"] else errors
  let errors := if p.authors = [] then errors ++ ["authors cannot be empty"] else errors
  let errors := if p.description = "" then errors ++ ["description cannot be empty"] else errors
  let errors := if utf8Len p.description > 100 then
      errors ++ ["description must be less than 100 characters"] else errors
  let errors := if p.license = "" then errors ++ ["license cannot be empty"] else errors
  errors ++ keywordErrors p.keywords

/-- `Package::is_valid`. -/
def is_valid (kebab : String → String) (p : Package) : Bool :=
  validate kebab p |>.isEmpty

/-! ### Helper lemmas about `validate` -/

theorem strDataAppend (s t : String) : (s ++ t).data = s.data ++ t.data := by
  cases s; cases t; rfl

theorem strLenAppend (s t : String) : (s ++ t).length = s.length + t.length := by
  show (s ++ t).data.length = s.data.length + t.data.length
  rw [strDataAppend, List.length_append]

theorem push_eq (c : Prop) [Decidable c] (l : List String) (m : String) :
    (if c then l ++ [m] else l) = l ++ (if c then [m] else []) := by
  split <;> simp

/-- A rewriting of `validate` as a concatenation of per-check singleton
lists, convenient for membership and count reasoning. -/
theorem validate_explicit (kebab : String → String) (p : Package) :
    validate kebab p =
      (if p.name = "" then ["name cannot be empty"] else []) ++
      (if kebab p.name ≠ p.name then ["name must be kebab-case"] else []) ++
      (if p.name.data.any (fun c => !isAsciiAlphanumericChar c && c != '-') then
        ["name must be alphanumeric"] else []) ++
      (if p.version = "" then ["version cannot be empty"] else []) ++
      (if p.authors = [] then ["authors cannot be empty"] else []) ++
      (if p.description = "" then ["description cannot be empty"] else []) ++
      (if utf8Len p.description > 100 then
        ["description must be less than 100 characters"] else []) ++
      (if p.license = "" then ["license cannot be empty"] else []) ++
      keywordErrors p.keywords := by
  simp only [validate, push_eq]
  simp only [List.nil_append, List.append_assoc]

theorem kwMsg_ne (k s : String) (h : s.length < 60) : kwMsg k ≠ s := by
  intro he
  have hl : (kwMsg k).length = s.length := congrArg String.length he
  rw [kwMsg, strLenAppend, strLenAppend] at hl
  have h17 : 17 ≤ ("invalid keyword: " : String).length := by decide
  have hsuf : 43 ≤
      ((" (valid keywords: [\"qol\", \"cheat\", \"bugfix\", \"cosmetic\", \"feature\"])" :
        String)).length := by decide
  omega

theorem not_mem_keywordErrors (s : String) (h : s.length < 60) (ks : List String) :
    s ∉ keywordErrors ks := by
  induction ks with
  | nil => simp [keywordErrors]
  | cons k rest ih =>
    simp only [keywordErrors]
    split
    · exact ih
    · intro hmem
      rcases List.mem_cons.mp hmem with he | hm
      · exact kwMsg_ne k s h he.symm
      · exact ih hm

theorem mem_if_single (c : Prop) [Decidable c] (m x : String) :
    x ∈ (if c then [m] else []) ↔ c ∧ x = m := by
  split <;> simp_all

theorem count_if_single (c : Prop) [Decidable c] (m mm : String) :
    List.count m (if c then [mm] else []) = if c ∧ mm = m then 1 else 0 := by
  split <;> simp_all [List.count_singleton']

theorem keywordErrors_all_valid (ks : List String) (h : ∀ k ∈ ks, k ∈ VALID_KEYWORDS) :
    keywordErrors ks = [] := by
  induction ks with
  | nil => rfl
  | cons k rest ih =>
    have hk : VALID_KEYWORDS.contains k = true :=
      List.elem_eq_true_of_mem (h k (by simp))
    simp only [keywordErrors, hk, if_pos]
    exact ih fun x hx => h x (List.mem_cons_of_mem _ hx)

theorem utf8Len_foldl (l : List Char) (n : Nat) (h : ∀ c ∈ l, c.toNat < 128) :
    List.foldl (fun n c => n + rustCharLen c) n l = n + l.length := by
  induction l generalizing n with
  | nil => simp
  | cons c rest ih =>
    have hc : rustCharLen c = 1 := by
      have := h c (by simp)
      simp [rustCharLen]
      omega
    simp only [List.foldl, hc, List.length_cons]
    rw [ih _ fun x hx => h x (List.mem_cons_of_mem _ hx)]
    omega

theorem utf8Len_ascii (s : String) (h : ∀ c ∈ s.data, c.toNat < 128) :
    utf8Len s = s.length := by
  show List.foldl _ 0 s.data = s.data.length
  rw [utf8Len_foldl s.data 0 h]
  omega

/-! ### Claims C3 and C10 -/

/-- C3 (amended): `Package::validate` reports the description-length
violation exactly when the description's UTF-8 byte length (Rust
`String::len`) exceeds 100; only for all-ASCII descriptions does this
coincide with the claimed bound of 100 characters. -/
theorem validate_description_bound (kebab : String → String) (p : Package) :
    ("description must be less than 100 characters" ∈ validate kebab p ↔
      100 < utf8Len p.description) ∧
    ((∀ c ∈ p.description.data, c.toNat < 128) →
      ("description must be less than 100 characters" ∈ validate kebab p ↔
        100 < p.description.length)) := by
  have hkw := not_mem_keywordErrors "description must be less than 100 characters"
    (by decide) p.keywords
  have hmain : "description must be less than 100 characters" ∈ validate kebab p ↔
      100 < utf8Len p.description := by
    rw [validate_explicit]
    simp [mem_if_single, hkw]
  exact ⟨hmain, fun h => by rw [hmain, utf8Len_ascii p.description h]⟩

def pkgC3 : Package :=
  { name := "mod", version := "0.1.0", authors := ["a"],
    description := ⟨List.replicate 51 'é'⟩, license := "MIT", keywords := [] }

/-- C3 counterexample: a non-empty description of 51 characters (each two
UTF-8 bytes, so 102 bytes) is within the claimed 100-character bound, yet
`Package::validate` reports the description-length violation. -/
theorem validate_description_bound_cex :
    pkgC3.description ≠ "" ∧ pkgC3.description.length = 51 ∧
    pkgC3.description.length ≤ 100 ∧
    "description must be less than 100 characters" ∈ validate id pkgC3 := by
  refine ⟨by decide, by decide, by decide, by decide⟩

def pkgC3w : Package :=
  { name := "ok-mod", version := "1.0", authors := ["a"],
    description := "hello", license := "MIT", keywords := [] }

/-- C3 witness: on an all-ASCII package the amended theorem applies and the
byte bound coincides with the character bound. -/
theorem validate_description_bound_witness :
    "description must be less than 100 characters" ∈ validate id pkgC3w ↔
      100 < pkgC3w.description.length :=
  (validate_description_bound id pkgC3w).2 (by decide)

/-- C10: each of the four non-emptiness checks (version, authors,
description, license) contributes exactly one violation when its field is
empty and none otherwise, and a package satisfying every check validates
to the empty list, with `is_valid` true. -/
theorem validate_nonempty_checks (kebab : String → String) (p : Package) :
    (List.count "version cannot be empty" (validate kebab p) =
      if p.version = "" then 1 else 0) ∧
    (List.count "authors cannot be empty" (validate kebab p) =
      if p.authors = [] then 1 else 0) ∧
    (List.count "description cannot be empty" (validate kebab p) =
      if p.description = "" then 1 else 0) ∧
    (List.count "license cannot be empty" (validate kebab p) =
      if p.license = "" then 1 else 0) ∧
    ((p.name ≠ "" ∧ kebab p.name = p.name ∧
      p.name.data.any (fun c => !isAsciiAlphanumericChar c && c != '-') = false ∧
      p.version ≠ "" ∧ p.authors ≠ [] ∧ p.description ≠ "" ∧
      utf8Len p.description ≤ 100 ∧ p.license ≠ "" ∧
      ∀ k ∈ p.keywords, k ∈ VALID_KEYWORDS) →
      validate kebab p = [] ∧ is_valid kebab p = true) := by
  have hkz : ∀ m : String, m.length < 60 →
      List.count m (keywordErrors p.keywords) = 0 := fun m hm =>
    List.count_eq_zero.mpr (not_mem_keywordErrors m hm p.keywords)
  refine ⟨?_, ?_, ?_, ?_, ?_⟩
  · rw [validate_explicit]
    simp [List.count_append, count_if_single, hkz "version cannot be empty" (by decide)]
    split <;> simp [List.count_singleton']
  · rw [validate_explicit]
    simp [List.count_append, count_if_single, hkz "authors cannot be empty" (by decide)]
    split <;> simp [List.count_singleton']
  · rw [validate_explicit]
    simp [List.count_append, count_if_single, hkz "description cannot be empty" (by decide)]
    split <;> simp [List.count_singleton']
  · rw [validate_explicit]
    simp [List.count_append, count_if_single, hkz "license cannot be empty" (by decide)]
    split <;> simp [List.count_singleton']
  · rintro ⟨h1, h2, h3, h4, h5, h6, h7, h8, h9⟩
    have hlen : ¬ (utf8Len p.description > 100) := by omega
    have heq : validate kebab p = [] := by
      rw [validate_explicit, keywordErrors_all_valid p.keywords h9]
      simp [h1, h2, h3, h4, h5, h6, hlen, h8]
    exact ⟨heq, by simp [is_valid, heq]⟩

def pkgOk : Package :=
  { name := "my-mod", version := "0.1.0", authors := ["someone"],
    description := "A mod", license := "MIT", keywords := ["qol"] }

/-- C10 witness: a concrete package passing every check validates to the
empty list. -/
theorem validate_nonempty_checks_witness :
    validate id pkgOk = [] ∧ is_valid id pkgOk = true :=
  (validate_nonempty_checks id pkgOk).2.2.2.2
    (by refine ⟨?_, ?_, ?_, ?_, ?_, ?_, ?_, ?_, ?_⟩ <;> decide)

/-! ## The packaging pipeline (`src/pack.rs`)

`pack::run` is embedded as a function of an environment that fixes the
out-of-scope collaborators: the CLI output argument, the package name from
the validated config, the current directory, the pre-existing contents of
the staging patches directory, the exit status of each external process
(git format-patch, tar -cjvf, tar -tvf, openssl enc) and the patch files
git writes on success, and which allow-listed metadata files exist in the
submodule directory.  The result records the pipeline outcome, an ordered
trace of observable effects, and the final contents of the patches
directory. -/

/-- A directory entry, as distinguished by `clear_dir` (file vs subdirectory). -/
inductive FsEntry
  | file (name : String)
  | dir (name : String)
deriving DecidableEq, Repr

/-- The external processes `pack::run` invokes, in pipeline order. -/
inductive Proc
  | git
  | tar
  | tarList
  | openssl
deriving DecidableEq, Repr

/-- Observable effects of a run, in order of occurrence. -/
inductive Event
  | warnedExtension
  | createdDir
  | cleared
  | ran (p : Proc) (success : Bool)
  | copiedFile (name : String)
  | copiedToOutput (p : FsPath)
deriving DecidableEq, Repr

/-- The distinct fatal errors of `pack::run` (each `bail!` / `?` site). -/
inductive PackErr
  | emptyOutputName
  | currentDirErr
  | gitFailed
  | noCommits
  | tarFailed
  | opensslFailed
deriving DecidableEq, Repr

structure Env where
  outputArg : Option FsPath
  packageName : String
  currentDir : Option FsPath
  patchesDirInitial : Option (List FsEntry)
  gitOk : Bool
  gitPatchFiles : List String
  /-- File names existing in the submodule directory (`mod_dir.submodule_dir()`,
  the vendored papermario checkout) — the directory the metadata copy loop
  actually reads (`submodule_dir.join(file).exists()`). -/
  submoduleFiles : List String
  /-- File names existing at the mod project root (`mod_dir.path()`), the
  directory holding the project manifest.  `pack::run` never consults this
  listing: the copy loop reads `submoduleFiles` instead. -/
  modRootFiles : List String
  tarOk : Bool
  tarListOk : Bool
  opensslOk : Bool
deriving Repr

structure RunOut where
  res : Except PackErr FsPath
  events : List Event
  patchesFinal : List FsEntry

/-- The fixed metadata allow-list copied from the submodule directory. -/
def METADATA_FILES : List String :=
  ["merlon.toml",
   "README.md", "README.txt", "README",
   "LICENSE.md", "LICENSE.txt", "LICENSE",
   "CONTRIBUTING.md", "CONTRIBUTING.txt", "CONTRIBUTING"]

/-- Writing a file into a directory: a fresh entry is appended, an
existing one is overwritten in place (the listing is unchanged). -/
def addEntry (d : List FsEntry) (e : FsEntry) : List FsEntry :=
  if e ∈ d then d else d ++ [e]

/-- `clear_dir`: iterate over a snapshot of the directory listing and
remove each entry (`remove_dir_all` for directories, `remove_file` for
files — both delete the entry from the listing). -/
def clear_dir (entries : List FsEntry) : List FsEntry :=
  entries.foldl (fun remaining entry => remaining.erase entry) entries

/-- `fs::create_dir_all`: the directory now exists; pre-existing contents
are kept. -/
def createDirAll (d : Option (List FsEntry)) : List FsEntry :=
  d.getD []

/-- The `output_name` computation at the top of `run`: the explicit output
path's file stem if given, else the package name. -/
def outputNameOf (env : Env) : Option String :=
  match env.outputArg with
  | some path => fileStem path
  | none => some env.packageName

/-- The `output_path` computation: the explicit path as-is, else
`current_dir/<name>` with the extension set to `merlon`; `none` models a
`current_dir` failure. -/
def outPathOf (env : Env) (name : String) : Option FsPath :=
  match env.outputArg with
  | some p => some p
  | none => env.currentDir.map (fun path => setExt (pushPath path name) "merlon")

/-- The resolved output path of a run, when name and path resolution both
succeed. -/
def resolvedOutput (env : Env) : Option FsPath :=
  match outputNameOf env with
  | none => none
  | some name => outPathOf env name

/-- The staging patches directory right after `create_dir_all` + `clear_dir`. -/
def clearedDir (env : Env) : List FsEntry :=
  clear_dir (createDirAll env.patchesDirInitial)

/-- The patches directory after `git format-patch` wrote its patch files. -/
def afterGit (env : Env) : List FsEntry :=
  env.gitPatchFiles.foldl (fun d n => addEntry d (.file n)) (clearedDir env)

/-- The metadata copy loop: for each allow-listed file name, copy it into
the bundle directory when it exists in the submodule directory, recording
one `copiedFile` event per copy. -/
def copyMetadataAux (submoduleFiles : List String) :
    List String → List FsEntry → List FsEntry × List Event
  | [], d => (d, [])
  | file :: rest, d =>
    if file ∈ submoduleFiles then
      let out := copyMetadataAux submoduleFiles rest (addEntry d (.file file))
      (out.1, .copiedFile file :: out.2)
    else copyMetadataAux submoduleFiles rest d

def copyMetadata (submoduleFiles : List String) (d : List FsEntry) :
    List FsEntry × List Event :=
  copyMetadataAux submoduleFiles METADATA_FILES d

/-- The bundle directory and copy events after extraction and the metadata
copy loop. -/
def bundled (env : Env) : List FsEntry × List Event :=
  copyMetadata env.submoduleFiles (afterGit env)

/-- `pack::run`, stage by stage in source order: resolve the output name
(bailing when the explicit path has no file stem), resolve the output path,
warn when its extension is not `merlon`, create and clear the staging
directory, run `git format-patch` (bailing on failure), copy the metadata
allow-list, bail when the resulting bundle directory is empty, run `tar
-cjvf` (bailing on failure), run `tar -tvf` (status ignored), run `openssl
enc` (bailing on failure), and finally copy the encrypted file to the
output path. -/
def run (env : Env) : RunOut :=
  match outputNameOf env with
  | none => ⟨.error .emptyOutputName, [], []⟩
  | some name =>
    match outPathOf env name with
    | none => ⟨.error .currentDirErr, [], []⟩
    | some output_path =>
      let warnEvents : List Event :=
        if extOrDefault output_path ≠ "merlon" then [.warnedExtension] else []
      let ev0 := warnEvents ++ [.createdDir, .cleared, .ran .git env.gitOk]
      if env.gitOk then
        let d := (bundled env).1
        let ev1 := ev0 ++ (bundled env).2
        if d.length = 0 then ⟨.error .noCommits, ev1, d⟩
        else
          let ev2 := ev1 ++ [.ran .tar env.tarOk]
          if env.tarOk then
            let ev3 := ev2 ++ [.ran .tarList env.tarListOk, .ran .openssl env.opensslOk]
            if env.opensslOk then
              ⟨.ok output_path, ev3 ++ [.copiedToOutput output_path], d⟩
            else ⟨.error .opensslFailed, ev3, d⟩
          else ⟨.error .tarFailed, ev2, d⟩
      else ⟨.error .gitFailed, ev0, clearedDir env⟩

/-! ### Helper lemmas about the pipeline -/

theorem clear_dir_eq_nil (entries : List FsEntry) : clear_dir entries = [] := by
  induction entries with
  | nil => rfl
  | cons e rest ih =>
    show List.foldl _ (e :: rest) (e :: rest) = []
    rw [List.foldl_cons, List.erase_cons_head]
    exact ih

theorem copyMetadataAux_skip (files : List String) (l : List String) (d : List FsEntry)
    (h : ∀ f ∈ l, f ∉ files) : copyMetadataAux files l d = (d, []) := by
  induction l generalizing d with
  | nil => rfl
  | cons f rest ih =>
    have hf : f ∉ files := h f (by simp)
    simp only [copyMetadataAux, if_neg hf]
    exact ih d fun x hx => h x (List.mem_cons_of_mem _ hx)

theorem copyMetadataAux_mem (files : List String) (l : List String) (d : List FsEntry)
    (name : String) :
    Event.copiedFile name ∈ (copyMetadataAux files l d).2 ↔ name ∈ l ∧ name ∈ files := by
  induction l generalizing d with
  | nil => simp [copyMetadataAux]
  | cons f rest ih =>
    by_cases hf : f ∈ files
    · simp only [copyMetadataAux, if_pos hf, List.mem_cons, Event.copiedFile.injEq]
      rw [ih]
      constructor
      · rintro (he | ⟨hl, hfs⟩)
        · exact ⟨Or.inl he, he ▸ hf⟩
        · exact ⟨Or.inr hl, hfs⟩
      · rintro ⟨he | hl, hfs⟩
        · exact Or.inl he
        · exact Or.inr ⟨hl, hfs⟩
    · simp only [copyMetadataAux, if_neg hf]
      rw [ih]
      simp only [List.mem_cons]
      constructor
      · rintro ⟨hl, hfs⟩
        exact ⟨Or.inr hl, hfs⟩
      · rintro ⟨he | hl, hfs⟩
        · exact absurd (he ▸ hfs) hf
        · exact ⟨hl, hfs⟩

theorem not_mem_copyMetadataAux (files : List String) (l : List String) (d : List FsEntry)
    (e : Event) (h : ∀ n, e ≠ Event.copiedFile n) : e ∉ (copyMetadataAux files l d).2 := by
  induction l generalizing d with
  | nil => simp [copyMetadataAux]
  | cons f rest ih =>
    by_cases hf : f ∈ files
    · simp only [copyMetadataAux, if_pos hf, List.mem_cons]
      rintro (he | hm)
      · exact h f he
      · exact ih _ hm
    · simp only [copyMetadataAux, if_neg hf]
      exact ih d

/-! ### Claims C8 and C4 -/

/-- C8: before extraction the staging patches directory is brought to an
existing-and-empty state (`clearedDir` is always empty, whatever was there
before), and the whole run is insensitive to the staging directory's
pre-existing contents — they are destroyed, never merged. -/
theorem pack_clears_staging (env : Env) (l : Option (List FsEntry)) :
    clearedDir env = [] ∧ run { env with patchesDirInitial := l } = run env := by
  have hc : ∀ e : Env, clearedDir e = [] := fun e => clear_dir_eq_nil _
  refine ⟨hc env, ?_⟩
  cases env
  simp only [run, bundled, afterGit, outputNameOf, outPathOf, copyMetadata, hc]

/-- C4 (amended): the fatal "output filename cannot be empty" error occurs
exactly when an explicit output path has no file stem; an empty package
name with no explicit output yields the logical name `""` and does not
trigger it. -/
theorem pack_empty_output_name (env : Env) :
    (run env).res = .error .emptyOutputName ↔
      ∃ p, env.outputArg = some p ∧ fileStem p = none := by
  constructor
  · intro h
    cases ho : outputNameOf env with
    | none =>
      cases hp : env.outputArg with
      | none => simp [outputNameOf, hp] at ho
      | some p => exact ⟨p, rfl, by simpa [outputNameOf, hp] using ho⟩
    | some name =>
      exfalso
      cases hq : outPathOf env name with
      | none => simp [run, ho, hq] at h
      | some op =>
        simp only [run, ho, hq] at h
        split_ifs at h <;> simp_all
  · rintro ⟨p, hp, hs⟩
    have ho : outputNameOf env = none := by simp [outputNameOf, hp, hs]
    simp [run, ho]

def envC4 : Env :=
  { outputArg := none, packageName := "", currentDir := some ⟨["home"], some "work"⟩,
    patchesDirInitial := some [], gitOk := true, gitPatchFiles := ["0001-a.patch"],
    submoduleFiles := [], modRootFiles := [], tarOk := true, tarListOk := true, opensslOk := true }

/-- C4 counterexample: with an empty package name and no explicit output
path the computed logical output name is the empty string, yet the
pipeline does not fail with "output filename cannot be empty" — it runs to
completion (the output path degenerates to the current directory with a
`merlon` extension). -/
theorem pack_empty_output_name_cex :
    outputNameOf envC4 = some "" ∧
    (run envC4).res = .ok ⟨["home"], some "work.merlon"⟩ := by
  exact ⟨rfl, rfl⟩

/-! ### Claim C1 -/

/-- C1 (amended): when extraction yields zero patch files AND no
allow-listed metadata file exists in the submodule directory, the run
fails with the "no commits" error and the final copy to the output path
never happens.  (The emptiness check runs after the metadata copy, so a
present metadata file defeats it — see the counterexample.) -/
theorem pack_no_commits_amended (env : Env)
    (hr : (resolvedOutput env).isSome = true)
    (hg : env.gitOk = true)
    (hp : env.gitPatchFiles = [])
    (hm : ∀ f ∈ METADATA_FILES, f ∉ env.submoduleFiles) :
    (run env).res = .error .noCommits ∧
      ∀ q, Event.copiedToOutput q ∉ (run env).events := by
  cases ho : outputNameOf env with
  | none => simp [resolvedOutput, ho] at hr
  | some name =>
  cases hq : outPathOf env name with
  | none => simp [resolvedOutput, ho, hq] at hr
  | some op =>
  have hag : afterGit env = [] := by
    rw [afterGit, hp]
    exact clear_dir_eq_nil _
  have hb : bundled env = ([], []) := by
    rw [bundled, hag, copyMetadata]
    exact copyMetadataAux_skip _ _ _ hm
  simp only [run, ho, hq, hg, hb, if_true]
  refine ⟨by simp, fun q => ?_⟩
  by_cases hw : extOrDefault op ≠ "merlon" <;> simp [hw]

def envC1 : Env :=
  { outputArg := none, packageName := "my-mod", currentDir := some ⟨["home"], some "work"⟩,
    patchesDirInitial := some [.file "stale.patch"], gitOk := true, gitPatchFiles := [],
    submoduleFiles := ["README.md"], modRootFiles := [], tarOk := true, tarListOk := true, opensslOk := true }

/-- C1 counterexample: extraction yields zero patch files, but a README.md
exists and is copied by the metadata bundler before the emptiness check,
so the run succeeds and the artifact is copied to the output path — the
claimed "no commits" failure does not occur. -/
theorem pack_no_commits_cex :
    envC1.gitPatchFiles = [] ∧
    (run envC1).res = .ok ⟨["home", "work"], some "my-mod.merlon"⟩ ∧
    Event.copiedToOutput ⟨["home", "work"], some "my-mod.merlon"⟩ ∈ (run envC1).events := by
  refine ⟨rfl, rfl, by decide⟩

def envC1w : Env :=
  { outputArg := none, packageName := "my-mod", currentDir := some ⟨["home"], some "work"⟩,
    patchesDirInitial := some [], gitOk := true, gitPatchFiles := [], submoduleFiles := [], modRootFiles := [],
    tarOk := true, tarListOk := true, opensslOk := true }

/-- C1 witness: with zero patch files and no metadata files present the
run fails with the "no commits" error and never copies to the output. -/
theorem pack_no_commits_witness :
    (run envC1w).res = .error .noCommits ∧
      ∀ q, Event.copiedToOutput q ∉ (run envC1w).events :=
  pack_no_commits_amended envC1w rfl rfl rfl (by decide)

/-! ### Claim C2 -/

/-- C2 (amended): the exit statuses of `git format-patch`, `tar -cjvf` and
`openssl enc` are checked immediately and a failure aborts the pipeline
before any later stage runs; the `tar -tvf` archive-listing invocation is
the exception — its exit status is ignored, and the pipeline completes
successfully whatever that status is. -/
theorem pack_status_checks (env : Env) (op : FsPath)
    (hr : resolvedOutput env = some op) :
    (env.gitOk = false →
      (run env).res = .error .gitFailed ∧
      (∀ b, Event.ran .tar b ∉ (run env).events) ∧
      (∀ b, Event.ran .tarList b ∉ (run env).events) ∧
      (∀ b, Event.ran .openssl b ∉ (run env).events) ∧
      (∀ q, Event.copiedToOutput q ∉ (run env).events)) ∧
    (env.gitOk = true → (bundled env).1 ≠ [] → env.tarOk = false →
      (run env).res = .error .tarFailed ∧
      (∀ b, Event.ran .tarList b ∉ (run env).events) ∧
      (∀ b, Event.ran .openssl b ∉ (run env).events) ∧
      (∀ q, Event.copiedToOutput q ∉ (run env).events)) ∧
    (env.gitOk = true → (bundled env).1 ≠ [] → env.tarOk = true → env.opensslOk = false →
      (run env).res = .error .opensslFailed ∧
      (∀ q, Event.copiedToOutput q ∉ (run env).events)) ∧
    (env.gitOk = true → (bundled env).1 ≠ [] → env.tarOk = true → env.opensslOk = true →
      (run env).res = .ok op ∧
      Event.ran .tarList env.tarListOk ∈ (run env).events) := by
  have hb2 : ∀ (pr : Proc) (b : Bool), Event.ran pr b ∉ (bundled env).2 := fun pr b =>
    not_mem_copyMetadataAux _ _ _ _ (fun n => by simp)
  have hb3 : ∀ q, Event.copiedToOutput q ∉ (bundled env).2 := fun q =>
    not_mem_copyMetadataAux _ _ _ _ (fun n => by simp)
  cases ho : outputNameOf env with
  | none => simp [resolvedOutput, ho] at hr
  | some name =>
  simp only [resolvedOutput, ho] at hr
  refine ⟨?_, ?_, ?_, ?_⟩
  · intro hg
    simp only [run, ho, hr, hg]
    refine ⟨by simp, ?_, ?_, ?_, ?_⟩ <;> intro x <;>
      by_cases hw : extOrDefault op ≠ "merlon" <;> simp [hw]
  · intro hg hd ht
    have hne : ¬ ((bundled env).1.length = 0) := by
      simpa [List.length_eq_zero] using hd
    simp only [run, ho, hr, hg, ht, if_neg hne, if_true]
    refine ⟨by simp, ?_, ?_, ?_⟩ <;> intro x <;>
      by_cases hw : extOrDefault op ≠ "merlon" <;>
      simp [hw, hb2, hb3]
  · intro hg hd ht hs
    have hne : ¬ ((bundled env).1.length = 0) := by
      simpa [List.length_eq_zero] using hd
    simp only [run, ho, hr, hg, ht, hs, if_neg hne, if_true]
    refine ⟨by simp, ?_⟩
    intro x
    by_cases hw : extOrDefault op ≠ "merlon" <;> simp [hw, hb2, hb3]
  · intro hg hd ht hs
    have hne : ¬ ((bundled env).1.length = 0) := by
      simpa [List.length_eq_zero] using hd
    simp only [run, ho, hr, hg, ht, hs, if_neg hne, if_true]
    exact ⟨by simp, by simp⟩

def envC2 : Env :=
  { outputArg := some ⟨["home"], some "out.merlon"⟩, packageName := "m", currentDir := none,
    patchesDirInitial := some [], gitOk := true, gitPatchFiles := ["0001-a.patch"],
    submoduleFiles := [], modRootFiles := [], tarOk := true, tarListOk := false, opensslOk := true }

/-- C2 counterexample: the archive-listing invocation (`tar -tvf`) returns
a failure status, yet the pipeline does not terminate — encryption still
runs and the run succeeds, refuting "any non-zero/failure status
terminates the pipeline" for the listing stage. -/
theorem pack_status_checks_cex :
    Event.ran .tarList false ∈ (run envC2).events ∧
    Event.ran .openssl true ∈ (run envC2).events ∧
    (run envC2).res = .ok ⟨["home"], some "out.merlon"⟩ := by
  refine ⟨by decide, by decide, rfl⟩

def envC2w : Env :=
  { outputArg := some ⟨["home"], some "out.merlon"⟩, packageName := "m", currentDir := none,
    patchesDirInitial := some [], gitOk := false, gitPatchFiles := [],
    submoduleFiles := [], modRootFiles := [], tarOk := true, tarListOk := true, opensslOk := true }

/-- C2 witness: a failing `git format-patch` aborts the run with the git
error and no later external process is invoked. -/
theorem pack_status_checks_witness :
    (run envC2w).res = .error .gitFailed ∧
      ∀ b, Event.ran .tar b ∉ (run envC2w).events :=
  have h := (pack_status_checks envC2w ⟨["home"], some "out.merlon"⟩ rfl).1 rfl
  ⟨h.1, h.2.1⟩

/-! ### Claim C5 -/

/-- C5: when the resolved output path's extension is not `merlon`, the
pipeline emits the extension warning but still proceeds and — absent other
failures — succeeds, placing the artifact at that exact path. -/
theorem pack_ext_warning (env : Env) (op : FsPath)
    (hr : resolvedOutput env = some op)
    (hw : extOrDefault op ≠ "merlon")
    (hg : env.gitOk = true) (hd : (bundled env).1 ≠ [])
    (ht : env.tarOk = true) (hs : env.opensslOk = true) :
    (run env).res = .ok op ∧
    Event.warnedExtension ∈ (run env).events ∧
    Event.copiedToOutput op ∈ (run env).events := by
  cases ho : outputNameOf env with
  | none => simp [resolvedOutput, ho] at hr
  | some name =>
  simp only [resolvedOutput, ho] at hr
  have hne : ¬ ((bundled env).1.length = 0) := by
    simpa [List.length_eq_zero] using hd
  simp only [run, ho, hr, hg, ht, hs, if_neg hne, if_true, if_pos hw]
  exact ⟨by simp, by simp, by simp⟩

def envC5 : Env :=
  { outputArg := some ⟨["home"], some "out.zip"⟩, packageName := "m", currentDir := none,
    patchesDirInitial := some [], gitOk := true, gitPatchFiles := ["0001-a.patch"],
    submoduleFiles := [], modRootFiles := [], tarOk := true, tarListOk := true, opensslOk := true }

/-- C5 witness: an explicit `.zip` output path produces the warning and a
successful artifact at that path. -/
theorem pack_ext_warning_witness :
    (run envC5).res = .ok ⟨["home"], some "out.zip"⟩ ∧
    Event.warnedExtension ∈ (run envC5).events ∧
    Event.copiedToOutput ⟨["home"], some "out.zip"⟩ ∈ (run envC5).events :=
  pack_ext_warning envC5 ⟨["home"], some "out.zip"⟩ rfl (by decide) rfl (by decide) rfl rfl

/-! ### Claim C6 -/

/-- C6 (amended): in every run that reaches the bundling stage, an
allow-listed file is copied into the bundle directory if and only if it
exists in the submodule directory (the vendored papermario checkout) —
missing allow-listed files are silently skipped and nothing outside the
allow-list is ever copied; the mod project root is never consulted, so the
run is insensitive to its contents. -/
theorem pack_metadata_allowlist (env : Env) (name : String)
    (hr : (resolvedOutput env).isSome = true)
    (hg : env.gitOk = true) :
    (Event.copiedFile name ∈ (run env).events ↔
      name ∈ METADATA_FILES ∧ name ∈ env.submoduleFiles) ∧
    (∀ l, run { env with modRootFiles := l } = run env) := by
  constructor
  · cases ho : outputNameOf env with
    | none => simp [resolvedOutput, ho] at hr
    | some nm =>
    cases hq : outPathOf env nm with
    | none => simp [resolvedOutput, ho, hq] at hr
    | some op =>
    have hcm := copyMetadataAux_mem env.submoduleFiles METADATA_FILES (afterGit env) name
    have hb : (Event.copiedFile name ∈ (bundled env).2) ↔
        name ∈ METADATA_FILES ∧ name ∈ env.submoduleFiles := hcm
    simp only [run, ho, hq, hg, if_true]
    by_cases hw : extOrDefault op ≠ "merlon" <;>
      split_ifs <;> simp_all
  · intro l
    cases env
    rfl

def envC6cex : Env :=
  { outputArg := some ⟨["home"], some "out.merlon"⟩, packageName := "m", currentDir := none,
    patchesDirInitial := some [], gitOk := true, gitPatchFiles := ["0001-a.patch"],
    submoduleFiles := [], modRootFiles := ["merlon.toml"], tarOk := true, tarListOk := true,
    opensslOk := true }

/-- C6 counterexample: `merlon.toml` (allow-listed) exists at the mod
project root but not in the submodule directory; the run reaches the
bundling stage and completes, yet the file is never copied — the copy loop
reads the submodule directory, not the project root, refuting "copies that
file from the project root into the bundle directory if and only if it
exists there". -/
theorem pack_metadata_allowlist_cex :
    "merlon.toml" ∈ METADATA_FILES ∧
    "merlon.toml" ∈ envC6cex.modRootFiles ∧
    (run envC6cex).res = .ok ⟨["home"], some "out.merlon"⟩ ∧
    Event.copiedFile "merlon.toml" ∉ (run envC6cex).events := by
  refine ⟨by decide, by decide, rfl, by decide⟩

def envC6 : Env :=
  { outputArg := some ⟨["home"], some "out.merlon"⟩, packageName := "m", currentDir := none,
    patchesDirInitial := some [], gitOk := true, gitPatchFiles := [],
    submoduleFiles := ["README.md", "notes.txt"], modRootFiles := [], tarOk := true, tarListOk := true,
    opensslOk := true }

/-- C6 witness: a README.md existing in the submodule directory is copied. -/
theorem pack_metadata_allowlist_witness :
    Event.copiedFile "README.md" ∈ (run envC6).events :=
  (pack_metadata_allowlist envC6 "README.md" rfl rfl).1.mpr (by decide)

/-! ## The ROM content identifier (`src/rom.rs`)

`Rom::read_bytes` opens the file, propagating an open failure as an I/O
error, then reads it to the end and `unwrap`s the read result — a read
failure after a successful open is a panic, not an error.  `sha1_string`
hashes the bytes (the SHA-1 computation itself lives in the external
`sha1` crate and is a function parameter here) and renders the 20-byte
digest in lowercase hexadecimal; the `Display` impl writes the path and
appends the digest only when `sha1_string` returned `Ok`.  The world
record fixes the outcome of the two fallible operations. -/

structure RomWorld where
  path : String
  openOk : Bool
  readOk : Bool
  bytes : List Nat
deriving Repr

/-- Outcome of a Rust computation that may return an error or panic. -/
inductive RomOutcome (α : Type)
  | ok (val : α)
  | ioError
  | panicked
deriving DecidableEq, Repr

/-- `Rom::read_bytes`: `File::open` failure is returned as `Err`; a
`read_to_end` failure is `unwrap`ped and panics. -/
def read_bytes (w : RomWorld) : RomOutcome (List Nat) :=
  if w.openOk then
    if w.readOk then .ok w.bytes else .panicked
  else .ioError

/-- Lowercase hexadecimal digit, as produced by Rust `\x7b:02x\x7d`. -/
def hexDigit (n : Nat) : Char :=
  if n < 10 then Char.ofNat (48 + n) else Char.ofNat (87 + n)

/-- Two lowercase hex digits for one byte. -/
def hexByte (b : Nat) : String :=
  ⟨[hexDigit (b / 16 % 16), hexDigit (b % 16)]⟩

/-- The digest-to-hex loop in `Rom::sha1_string`. -/
def hexOfBytes (bs : List Nat) : String :=
  bs.foldl (fun s b => s ++ hexByte b) ""

/-- `Rom::sha1_string` with the external SHA-1 computation `digest` as a
parameter. -/
def sha1_string (digest : List Nat → List Nat) (w : RomWorld) : RomOutcome String :=
  match read_bytes w with
  | .ok bytes => .ok (hexOfBytes (digest bytes))
  | .ioError => .ioError
  | .panicked => .panicked

/-- The `Display` impl for `Rom`: the path, then the digest when
`sha1_string` succeeded; an `Err` from `sha1_string` is silently dropped,
but a panic propagates. -/
def rom_fmt (digest : List Nat → List Nat) (w : RomWorld) : RomOutcome String :=
  match sha1_string digest w with
  | .ok sha1 => .ok (w.path ++ " (SHA1: " ++ sha1 ++ ")")
  | .ioError => .ok w.path
  | .panicked => .panicked

/-! ### Claim C7 -/

/-- C7 (amended): formatting a `Rom` yields the path plus the digest in
lowercase hexadecimal when open and read both succeed, and the path alone
when the file cannot be opened — but when the file opens and the
subsequent read fails, the `unwrap` in `read_bytes` panics and the
failure does propagate out of the display path. -/
theorem rom_fmt_spec (digest : List Nat → List Nat) (w : RomWorld) :
    (w.openOk = false → rom_fmt digest w = .ok w.path) ∧
    (w.openOk = true → w.readOk = true →
      rom_fmt digest w = .ok (w.path ++ " (SHA1: " ++ hexOfBytes (digest w.bytes) ++ ")")) ∧
    (w.openOk = true → w.readOk = false → rom_fmt digest w = .panicked) := by
  refine ⟨?_, ?_, ?_⟩ <;> intro h <;>
    simp_all [rom_fmt, sha1_string, read_bytes]

/-- The digest function used in the concrete C7 statements; its value is
irrelevant to them. -/
def digestStub : List Nat → List Nat := fun _ => List.replicate 20 0

def romC7 : RomWorld :=
  { path := "papermario", openOk := true, readOk := false, bytes := [] }

/-- C7 counterexample: a path that opens successfully but whose read fails
(for example a directory on Linux, where `File::open` succeeds and
`read_to_end` fails) makes the display path panic instead of yielding the
path alone — refuting "a failure to hash never propagates as an error (or
panic) out of the display path". -/
theorem rom_fmt_cex : rom_fmt digestStub romC7 = .panicked := rfl

def romC7w : RomWorld :=
  { path := "baserom.z64", openOk := false, readOk := false, bytes := [] }

/-- C7 witness: an unopenable file formats as the path alone. -/
theorem rom_fmt_witness : rom_fmt digestStub romC7w = .ok "baserom.z64" :=
  (rom_fmt_spec digestStub romC7w).1 rfl

end Merlon
